import Mathlib

/-!
Shallow embedding of the piker client-side EMS control plane
(`piker/exchange/_client.py`) and the broker API proxy
(`piker/brokers/core.py`), together with proofs of the spec's claims.

Python dicts keyed by strings are modelled as association lists with
in-place-overwrite insertion (Python dicts preserve insertion order and
update values in place).  The trio memory channel is modelled as a bounded
FIFO buffer; `send_nowait` on a full channel raises `trio.WouldBlock`,
modelled as the `channelFull` error.  A registry lookup miss raises
`KeyError`, modelled as `unknownOrder`.  `trio.fail_after` raising
`trio.TooSlowError` is modelled as `handshakeTimeout`.
-/

namespace Piker

/-- Modelled from the spec: `Symbol` (from `piker.data._source`, not part of
the shown source) is "an instrument key plus set of eligible broker
identifiers"; `_client.py` reads exactly the attributes `key` and
`brokers`. -/
structure Symbol where
  key : String
  brokers : List String
deriving DecidableEq

/-- An order/cancel message: a Python dict with a fixed key vocabulary.
Keys absent from a given message (price, size, brokers, exec_mode on a
cancel message) are `none`. -/
structure Msg where
  action : String
  price : Option Rat
  size : Option Rat
  symbol : String
  brokers : Option (List String)
  oid : String
  exec_mode : Option String
deriving DecidableEq

/-- The error conditions of the client layer: `channelFull` models
`trio.WouldBlock` from `send_nowait` on a saturated channel,
`unknownOrder` models the `KeyError` from a registry lookup miss, and
`handshakeTimeout` models `trio.TooSlowError` from `trio.fail_after`. -/
inductive EmsError where
  | channelFull : EmsError
  | unknownOrder : String → EmsError
  | handshakeTimeout : EmsError
deriving DecidableEq

/-- The trio memory channel created by `trio.open_memory_channel(100)`:
a bounded FIFO buffer.  Both endpoints (`_to_ems`, `_from_order_book`)
share the one buffer. -/
structure Channel where
  capacity : Nat
  buf : List Msg
deriving DecidableEq

/-- `send_nowait`: non-blocking enqueue; appends to the buffer when there
is room and raises `trio.WouldBlock` (here `channelFull`) when the buffer
already holds `capacity` items, leaving the buffer unchanged. -/
def Channel.sendNowait (ch : Channel) (m : Msg) : Except EmsError Channel :=
  if ch.buf.length < ch.capacity then
    .ok { ch with buf := ch.buf ++ [m] }
  else
    .error .channelFull

/-- Association-list lookup, modelling Python dict subscript/`get`. -/
def assocFind {β : Type} : List (String × β) → String → Option β
  | [], _ => none
  | (k', v') :: rest, k => if k' = k then some v' else assocFind rest k

/-- Association-list insert, modelling Python dict assignment `d[k] = v`:
overwrites the value in place when the key is present, appends otherwise. -/
def assocInsert {β : Type} : List (String × β) → String → β → List (String × β)
  | [], k, v => [(k, v)]
  | (k', v') :: rest, k, v =>
    if k' = k then (k, v) :: rest else (k', v') :: assocInsert rest k v

/-- The `OrderBook` dataclass: the send-side channel handle and the receive
side share one modelled `Channel`; `sentOrders` is `_sent_orders`;
`readyToReceive` is the `_ready_to_receive` trio event. -/
structure OrderBook where
  toEms : Channel
  sentOrders : List (String × Msg)
  readyToReceive : Bool
deriving DecidableEq

/-- `OrderBook.send`: build the command dict, store it in `_sent_orders`
keyed by `uuid`, then `send_nowait` it onto `_to_ems` and return it.  The
registry assignment precedes the enqueue attempt, so on `channelFull` the
updated registry is kept while the channel is untouched. -/
def OrderBook.send (book : OrderBook) (uuid : String) (symbol : Symbol)
    (price : Rat) (size : Rat) (action : String) (exec_mode : String) :
    Except EmsError Msg × OrderBook :=
  let cmd : Msg :=
    { action := action
      price := some price
      size := some size
      symbol := symbol.key
      brokers := some symbol.brokers
      oid := uuid
      exec_mode := some exec_mode }
  let book' := { book with sentOrders := assocInsert book.sentOrders uuid cmd }
  match book'.toEms.sendNowait cmd with
  | .ok ch => (.ok cmd, { book' with toEms := ch })
  | .error e => (.error e, book')

/-- `OrderBook.modify`: the source body is a bare ellipsis stub, so the
coroutine silently returns `None` (despite the `-> bool` annotation) and
touches nothing. -/
def OrderBook.modify (book : OrderBook) (oid : String) (price : Rat) :
    Except EmsError (Option Bool) × OrderBook :=
  let _ := oid
  let _ := price
  (.ok none, book)

/-- The reduced cancel message `{action: cancel, oid, symbol}`. -/
def cancelMsg (oid : String) (symbol : String) : Msg :=
  { action := "cancel"
    price := none
    size := none
    symbol := symbol
    brokers := none
    oid := oid
    exec_mode := none }

/-- `OrderBook.cancel`: `self._sent_orders[uuid]` raises `KeyError`
(`unknownOrder`) when the id is absent; otherwise the reduced cancel
message is enqueued.  The registry is never modified. -/
def OrderBook.cancel (book : OrderBook) (uuid : String) :
    Except EmsError Unit × OrderBook :=
  match assocFind book.sentOrders uuid with
  | none => (.error (.unknownOrder uuid), book)
  | some cmd =>
    match book.toEms.sendNowait (cancelMsg uuid cmd.symbol) with
    | .ok ch => (.ok (), { book with toEms := ch })
    | .error e => (.error e, book)

/-- The `OrderBook` built by `get_orders` on first use:
`OrderBook(*trio.open_memory_channel(100))` with an empty registry and an
unset readiness event. -/
def newOrderBook : OrderBook :=
  { toEms := { capacity := 100, buf := [] }
    sentOrders := []
    readyToReceive := false }

/-- `get_orders`: singleton factory over the module-global `_orders`
(modelled as explicit state `Option OrderBook`).  The `emsd_uid` argument
is accepted and ignored (the source only has a TODO under it). -/
def get_orders (emsd_uid : Option (String × String)) (st : Option OrderBook) :
    OrderBook × Option OrderBook :=
  let _ := emsd_uid
  match st with
  | some book => (book, some book)
  | none => (newOrderBook, some newOrderBook)

/-- `send_order_cmds`: the relay task.  It sets `_ready_to_receive` and
then drains `_from_order_book`, yielding each command in FIFO order; the
result is the yielded sequence paired with the post-state. -/
def send_order_cmds (book : OrderBook) : List Msg × OrderBook :=
  (book.toEms.buf,
   { book with readyToReceive := true
               toEms := { book.toEms with buf := [] } })

/-- Enqueue a whole list of messages one `send_nowait` at a time, stopping
at the first failure. -/
def enqueueAll (ch : Channel) : List Msg → Except EmsError Channel
  | [] => .ok ch
  | m :: ms =>
    match ch.sendNowait m with
    | .ok ch' => enqueueAll ch' ms
    | .error e => .error e

/-- `open_ems`: spawn the `emsd` actor (the resulting trades stream is
opaque, a type parameter here), fetch the singleton book, then wait on the
readiness gate under `trio.fail_after(10)`.  `gateSetAt` is the time, in
the deadline's units, at which `send_order_cmds` sets the gate (`none`
when it never does); the wait completes only when that time is inside the
10-unit deadline, otherwise `trio.fail_after` raises (`handshakeTimeout`). -/
def open_ems {α : Type} (trades_stream : α) (gateSetAt : Option Nat)
    (st : Option OrderBook) :
    Except EmsError (OrderBook × α) × Option OrderBook :=
  let (book, st') := get_orders none st
  match gateSetAt with
  | some t =>
    if t < 10 then (.ok (book, trades_stream), st')
    else (.error .handshakeTimeout, st')
  | none => (.error .handshakeTimeout, st')

/-- One `OrderBook.send` request, bundling the call's arguments. -/
structure SendReq where
  uuid : String
  symbol : Symbol
  price : Rat
  size : Rat
  action : String
  exec_mode : String
deriving DecidableEq

/-- The command dict `OrderBook.send` builds for a request. -/
def cmdOf (r : SendReq) : Msg :=
  { action := r.action
    price := some r.price
    size := some r.size
    symbol := r.symbol.key
    brokers := some r.symbol.brokers
    oid := r.uuid
    exec_mode := some r.exec_mode }

/-- Apply one bundled send request. -/
def sendReq (book : OrderBook) (r : SendReq) : Except EmsError Msg × OrderBook :=
  book.send r.uuid r.symbol r.price r.size r.action r.exec_mode

/-- Run a sequence of send requests, threading the book state. -/
def runSends (book : OrderBook) : List SendReq → OrderBook
  | [] => book
  | r :: rs => runSends (sendReq book r).2 rs

/-- A broker client method as seen by `piker.brokers.core.api`:
`params` models `inspect.signature(meth).parameters` as a list of
(parameter name, parameter has no default, i.e. is required) pairs, and
`run` is the awaited call on the supplied keyword arguments.  The result
type is a parameter `α`; the proxy's "absence" result is `none`. -/
structure Method (α : Type) where
  params : List (String × Bool)
  run : List (String × α) → α

/-- A broker client handle: the methods reachable through the narrower
`client.api` capability and those on the client object itself. -/
structure Client (α : Type) where
  apiMethods : List (String × Method α)
  clientMethods : List (String × Method α)

/-- The method resolution of `piker.brokers.core.api`: `getattr(client.api,
methname, None)`, falling back to `getattr(client, methname, None)`. -/
def resolveMeth {α : Type} (client : Client α) (methname : String) :
    Option (Method α) :=
  match assocFind client.apiMethods methname with
  | some m => some m
  | none => assocFind client.clientMethods methname

/-- `piker.brokers.core.api`: resolve the method (api capability first,
then the client itself); `None` when unresolved; when no kwargs are given
and `sig.parameters` is non-empty, log and return `None`; otherwise call
the method on the kwargs and return its result. -/
def api {α : Type} (client : Client α) (methname : String)
    (kwargs : List (String × α)) : Option α :=
  match resolveMeth client methname with
  | none => none
  | some m =>
    if kwargs.isEmpty ∧ ¬ m.params.isEmpty then none
    else some (m.run kwargs)

/-- The proxy behaviour as claim C8 words it: absence is returned on a
missing method, or when no kwargs are given and the method REQUIRES
arguments (has at least one parameter without a default); otherwise the
method is invoked. -/
def apiClaimed {α : Type} (client : Client α) (methname : String)
    (kwargs : List (String × α)) : Option α :=
  match resolveMeth client methname with
  | none => none
  | some m =>
    if kwargs.isEmpty ∧ ¬ (m.params.filter (fun p => p.2)).isEmpty then none
    else some (m.run kwargs)

/-- The proxy behaviour as amended: absence on a missing method, or when
no kwargs are given and the method has ANY declared parameter (required
or optional); otherwise the method is invoked with the kwargs. -/
def apiAmended {α : Type} (client : Client α) (methname : String)
    (kwargs : List (String × α)) : Option α :=
  match Option.orElse (assocFind client.apiMethods methname)
      (fun _ => assocFind client.clientMethods methname) with
  | none => none
  | some m =>
    if kwargs.isEmpty then
      if m.params.isEmpty then some (m.run kwargs) else none
    else some (m.run kwargs)

/-- A concrete broker client whose api capability exposes one method with
a single optional parameter (in the source, e.g. `option_chain`'s
`date: Optional[str] = None`). -/
def exClient : Client Nat :=
  { apiMethods := [("option_chain", { params := [("date", false)]
                                      run := fun _ => 7 })]
    clientMethods := [] }

/-- A sample symbol. -/
def wSym : Symbol :=
  { key := "AAPL", brokers := ["ib"] }

/-- A sample buy request. -/
def wReq1 : SendReq :=
  { uuid := "abc-1", symbol := wSym, price := 3, size := 2
    action := "buy", exec_mode := "dark" }

/-- A second sample request with a distinct order id. -/
def wReq2 : SendReq :=
  { uuid := "abc-2", symbol := wSym, price := 5, size := 1
    action := "sell", exec_mode := "live" }

/-- A book whose registry already holds the sample buy command. -/
def wBook : OrderBook :=
  { toEms := { capacity := 100, buf := [] }
    sentOrders := [("abc-1", cmdOf wReq1)]
    readyToReceive := false }

/-- A book whose command channel is saturated. -/
def fullBook : OrderBook :=
  { toEms := { capacity := 1, buf := [cancelMsg "z" "Z"] }
    sentOrders := []
    readyToReceive := false }

section Lemmas

theorem assocFind_insert_self {β : Type} (d : List (String × β)) (k : String)
    (v : β) : assocFind (assocInsert d k v) k = some v := by
  induction d with
  | nil => simp [assocInsert, assocFind]
  | cons hd tl ih =>
    obtain ⟨k', v'⟩ := hd
    by_cases h : k' = k
    · simp [assocInsert, assocFind, h]
    · simp [assocInsert, assocFind, h, ih]

theorem assocFind_insert_ne {β : Type} (d : List (String × β)) (k k' : String)
    (v : β) (h : k' ≠ k) :
    assocFind (assocInsert d k v) k' = assocFind d k' := by
  have hkk : ¬ k = k' := fun hc => h hc.symm
  induction d with
  | nil => simp [assocInsert, assocFind, hkk]
  | cons hd tl ih =>
    obtain ⟨k₀, v₀⟩ := hd
    by_cases h₀ : k₀ = k
    · subst h₀
      simp [assocInsert, assocFind, hkk]
    · simp [assocInsert, assocFind, h₀, ih]

theorem assocInsert_keys_fresh {β : Type} (d : List (String × β)) (k : String)
    (v : β) (h : assocFind d k = none) :
    (assocInsert d k v).map Prod.fst = d.map Prod.fst ++ [k] := by
  induction d with
  | nil => simp [assocInsert]
  | cons hd tl ih =>
    obtain ⟨k₀, v₀⟩ := hd
    by_cases h₀ : k₀ = k
    · simp [assocFind, h₀] at h
    · simp [assocFind, h₀] at h
      simp [assocInsert, h₀, ih h]

theorem send_sentOrders (book : OrderBook) (r : SendReq) :
    (sendReq book r).2.sentOrders = assocInsert book.sentOrders r.uuid (cmdOf r) := by
  simp only [sendReq, OrderBook.send]
  split <;> rfl

theorem enqueueAll_ok (ms : List Msg) (ch ch' : Channel)
    (h : enqueueAll ch ms = .ok ch') : ch'.buf = ch.buf ++ ms := by
  induction ms generalizing ch with
  | nil =>
    simp [enqueueAll] at h
    simp [h]
  | cons m rest ih =>
    simp only [enqueueAll] at h
    cases hs : ch.sendNowait m with
    | ok ch₁ =>
      rw [hs] at h
      have hb : ch₁.buf = ch.buf ++ [m] := by
        simp only [Channel.sendNowait] at hs
        by_cases hlt : ch.buf.length < ch.capacity
        · simp [hlt] at hs
          simp [← hs]
        · simp [hlt] at hs
      have := ih ch₁ h
      simp [this, hb]
    | error e =>
      rw [hs] at h
      simp at h

theorem send_ok (book : OrderBook) (r : SendReq)
    (hroom : book.toEms.buf.length < book.toEms.capacity) :
    sendReq book r =
      (.ok (cmdOf r),
       { book with
           sentOrders := assocInsert book.sentOrders r.uuid (cmdOf r)
           toEms := { book.toEms with buf := book.toEms.buf ++ [cmdOf r] } }) := by
  simp [sendReq, OrderBook.send, Channel.sendNowait, hroom, cmdOf]

theorem runSends_find_preserved (rs : List SendReq) (book : OrderBook)
    (k : String) (h : k ∉ rs.map SendReq.uuid) :
    assocFind (runSends book rs).sentOrders k = assocFind book.sentOrders k := by
  induction rs generalizing book with
  | nil => rfl
  | cons r rest ih =>
    simp only [List.map_cons, List.mem_cons] at h
    push_neg at h
    obtain ⟨hne, hrest⟩ := h
    simp only [runSends]
    rw [ih _ hrest, send_sentOrders]
    exact assocFind_insert_ne _ _ _ _ hne

theorem runSends_lookup (rs : List SendReq) (book : OrderBook)
    (hnodup : (rs.map SendReq.uuid).Nodup) (r : SendReq) (hr : r ∈ rs) :
    assocFind (runSends book rs).sentOrders r.uuid = some (cmdOf r) := by
  induction rs generalizing book with
  | nil => cases hr
  | cons r₀ rest ih =>
    simp only [List.map_cons, List.nodup_cons] at hnodup
    obtain ⟨hnotin, hnd⟩ := hnodup
    rcases List.mem_cons.mp hr with hEq | hmem
    · subst hEq
      simp only [runSends]
      rw [runSends_find_preserved rest _ _ hnotin, send_sentOrders]
      exact assocFind_insert_self _ _ _
    · simp only [runSends]
      exact ih _ hnd hmem

theorem runSends_keys (rs : List SendReq) (book : OrderBook)
    (hnodup : (rs.map SendReq.uuid).Nodup)
    (hfresh : ∀ r ∈ rs, assocFind book.sentOrders r.uuid = none) :
    (runSends book rs).sentOrders.map Prod.fst =
      book.sentOrders.map Prod.fst ++ rs.map SendReq.uuid := by
  induction rs generalizing book with
  | nil => simp [runSends]
  | cons r₀ rest ih =>
    simp only [List.map_cons, List.nodup_cons] at hnodup
    obtain ⟨hnotin, hnd⟩ := hnodup
    have hfresh₀ : assocFind book.sentOrders r₀.uuid = none :=
      hfresh r₀ (List.mem_cons_self r₀ rest)
    have hfresh' : ∀ r ∈ rest,
        assocFind (sendReq book r₀).2.sentOrders r.uuid = none := by
      intro r hr
      rw [send_sentOrders]
      have hne : r.uuid ≠ r₀.uuid := by
        intro hc
        exact hnotin (hc ▸ List.mem_map_of_mem SendReq.uuid hr)
      rw [assocFind_insert_ne _ _ _ _ hne]
      exact hfresh r (List.mem_cons_of_mem r₀ hr)
    simp only [runSends]
    rw [ih _ hnd hfresh', send_sentOrders,
        assocInsert_keys_fresh _ _ _ hfresh₀]
    simp

end Lemmas

/-- C1: `send` builds the command record (action, price, size, symbol key,
brokers, oid, exec_mode) from its arguments, stores it in the registry
keyed by the order id (overwriting any prior entry for that id), enqueues
that same command on the command channel, and returns it; consequently,
after any sequence of sends with pairwise-distinct order ids starting from
a fresh book, the registry holds exactly one entry per order id, equal to
the command sent for that id. -/
theorem send_spec (book : OrderBook) (r : SendReq)
    (hroom : book.toEms.buf.length < book.toEms.capacity)
    (rs : List SendReq) (hnodup : (rs.map SendReq.uuid).Nodup) :
    (sendReq book r).1 = .ok (cmdOf r) ∧
    (sendReq book r).2.sentOrders = assocInsert book.sentOrders r.uuid (cmdOf r) ∧
    assocFind (sendReq book r).2.sentOrders r.uuid = some (cmdOf r) ∧
    (sendReq book r).2.toEms.buf = book.toEms.buf ++ [cmdOf r] ∧
    (runSends newOrderBook rs).sentOrders.map Prod.fst = rs.map SendReq.uuid ∧
    (∀ r' ∈ rs,
      assocFind (runSends newOrderBook rs).sentOrders r'.uuid = some (cmdOf r')) := by
  have hok := send_ok book r hroom
  refine ⟨?_, ?_, ?_, ?_, ?_, ?_⟩
  · rw [hok]
  · rw [hok]
  · rw [hok]
    exact assocFind_insert_self _ _ _
  · rw [hok]
  · have hkeys := runSends_keys rs newOrderBook hnodup (fun r₁ _ => rfl)
    simpa [newOrderBook] using hkeys
  · intro r' hr'
    exact runSends_lookup rs newOrderBook hnodup r' hr'

/-- Witness for C1 at concrete inputs. -/
theorem send_spec_witness :
    (newOrderBook.toEms.buf.length < newOrderBook.toEms.capacity ∧
     ([wReq1, wReq2].map SendReq.uuid).Nodup) ∧
    ((sendReq newOrderBook wReq1).1 = .ok (cmdOf wReq1) ∧
     (sendReq newOrderBook wReq1).2.sentOrders =
       assocInsert newOrderBook.sentOrders wReq1.uuid (cmdOf wReq1) ∧
     assocFind (sendReq newOrderBook wReq1).2.sentOrders wReq1.uuid =
       some (cmdOf wReq1) ∧
     (sendReq newOrderBook wReq1).2.toEms.buf =
       newOrderBook.toEms.buf ++ [cmdOf wReq1] ∧
     (runSends newOrderBook [wReq1, wReq2]).sentOrders.map Prod.fst =
       [wReq1, wReq2].map SendReq.uuid ∧
     (∀ r' ∈ [wReq1, wReq2],
       assocFind (runSends newOrderBook [wReq1, wReq2]).sentOrders r'.uuid =
         some (cmdOf r'))) :=
  ⟨⟨by decide, by decide⟩,
   send_spec newOrderBook wReq1 (by decide) [wReq1, wReq2] (by decide)⟩

/-- C2: every sequence of commands enqueued on the command channel is
yielded by the relay in exactly the enqueue order: FIFO, with nothing
reordered, batched, coalesced, or dropped. -/
theorem relay_fifo (book : OrderBook) (ms : List Msg) (ch' : Channel)
    (h : enqueueAll book.toEms ms = .ok ch') :
    (send_order_cmds { book with toEms := ch' }).1 = book.toEms.buf ++ ms := by
  simp [send_order_cmds, enqueueAll_ok ms book.toEms ch' h]

/-- Witness for C2: two commands enqueued from a fresh book are relayed
in exactly that order. -/
theorem relay_fifo_witness :
    enqueueAll newOrderBook.toEms [cancelMsg "a" "X", cancelMsg "b" "Y"] =
      .ok { capacity := 100, buf := [cancelMsg "a" "X", cancelMsg "b" "Y"] } ∧
    (send_order_cmds { newOrderBook with
        toEms := { capacity := 100
                   buf := [cancelMsg "a" "X", cancelMsg "b" "Y"] } }).1 =
      newOrderBook.toEms.buf ++ [cancelMsg "a" "X", cancelMsg "b" "Y"] :=
  ⟨rfl,
   relay_fifo newOrderBook [cancelMsg "a" "X", cancelMsg "b" "Y"]
     { capacity := 100, buf := [cancelMsg "a" "X", cancelMsg "b" "Y"] } rfl⟩

/-- C3: cancelling an order id absent from the registry fails with the
propagated UnknownOrder (KeyError) condition and leaves the book — the
channel contents included — completely unchanged. -/
theorem cancel_unknown_order (book : OrderBook) (uuid : String)
    (h : assocFind book.sentOrders uuid = none) :
    book.cancel uuid = (.error (.unknownOrder uuid), book) := by
  simp [OrderBook.cancel, h]

/-- Witness for C3 on a fresh book. -/
theorem cancel_unknown_order_witness :
    assocFind newOrderBook.sentOrders "missing" = none ∧
    newOrderBook.cancel "missing" =
      (.error (.unknownOrder "missing"), newOrderBook) :=
  ⟨rfl, cancel_unknown_order newOrderBook "missing" rfl⟩

/-- C4: cancelling a present order id enqueues exactly the reduced cancel
message (action "cancel", the order id, the stored command's symbol) onto
the command channel and retains the registry entry unchanged. -/
theorem cancel_present_spec (book : OrderBook) (uuid : String) (cmd : Msg)
    (h : assocFind book.sentOrders uuid = some cmd)
    (hroom : book.toEms.buf.length < book.toEms.capacity) :
    (book.cancel uuid).1 = .ok () ∧
    (book.cancel uuid).2.toEms.buf =
      book.toEms.buf ++ [cancelMsg uuid cmd.symbol] ∧
    (book.cancel uuid).2.sentOrders = book.sentOrders ∧
    assocFind (book.cancel uuid).2.sentOrders uuid = some cmd := by
  simp [OrderBook.cancel, h, Channel.sendNowait, hroom]

/-- Witness for C4 on a book holding the sample buy command. -/
theorem cancel_present_spec_witness :
    (assocFind wBook.sentOrders "abc-1" = some (cmdOf wReq1) ∧
     wBook.toEms.buf.length < wBook.toEms.capacity) ∧
    ((wBook.cancel "abc-1").1 = .ok () ∧
     (wBook.cancel "abc-1").2.toEms.buf =
       wBook.toEms.buf ++ [cancelMsg "abc-1" (cmdOf wReq1).symbol] ∧
     (wBook.cancel "abc-1").2.sentOrders = wBook.sentOrders ∧
     assocFind (wBook.cancel "abc-1").2.sentOrders "abc-1" =
       some (cmdOf wReq1)) :=
  ⟨⟨by decide, by decide⟩,
   cancel_present_spec wBook "abc-1" (cmdOf wReq1) (by decide) (by decide)⟩

/-- C5 (code bug): `modify` is a bare-ellipsis stub, so on every input it
silently returns `None` (no error of any kind) and leaves the book
untouched, instead of failing explicitly with the "unsupported operation"
condition the spec requires. -/
theorem modify_silent_noop (book : OrderBook) (oid : String) (price : Rat) :
    OrderBook.modify book oid price = (.ok none, book) ∧
    ∀ e : EmsError, (OrderBook.modify book oid price).1 ≠ .error e := by
  refine ⟨rfl, ?_⟩
  intro e h
  simp [OrderBook.modify] at h

/-- C6: `get_orders` creates the command channel with capacity 100, and a
non-blocking enqueue against a saturated channel fails immediately with
the ChannelFull condition, leaving the channel contents unchanged. -/
theorem channel_full_spec (u : Option (String × String)) (book : OrderBook)
    (r : SendReq) (hfull : book.toEms.capacity ≤ book.toEms.buf.length) :
    (get_orders u none).1.toEms.capacity = 100 ∧
    (sendReq book r).1 = .error .channelFull ∧
    (sendReq book r).2.toEms = book.toEms := by
  have hnot : ¬ book.toEms.buf.length < book.toEms.capacity := not_lt.mpr hfull
  refine ⟨rfl, ?_, ?_⟩
  · simp [sendReq, OrderBook.send, Channel.sendNowait, hnot]
  · simp [sendReq, OrderBook.send, Channel.sendNowait, hnot]

/-- Witness for C6 on a saturated channel. -/
theorem channel_full_spec_witness :
    fullBook.toEms.capacity ≤ fullBook.toEms.buf.length ∧
    ((get_orders none none).1.toEms.capacity = 100 ∧
     (sendReq fullBook wReq1).1 = .error .channelFull ∧
     (sendReq fullBook wReq1).2.toEms = fullBook.toEms) :=
  ⟨by decide, channel_full_spec none fullBook wReq1 (by decide)⟩

/-- C7: `open_ems` waits on the readiness gate under a hard 10-unit
deadline: when the gate is set within the deadline, the acquisition
yields the singleton order book and the trades stream; when the gate is
never set within the deadline, it fails with HandshakeTimeout instead. -/
theorem open_ems_handshake {α : Type} (s : α) (st : Option OrderBook)
    (g : Option Nat) :
    ((∃ t, g = some t ∧ t < 10) →
      (open_ems s g st).1 = .ok ((get_orders none st).1, s)) ∧
    ((∀ t, g = some t → 10 ≤ t) →
      (open_ems s g st).1 = .error .handshakeTimeout) := by
  constructor
  · rintro ⟨t, rfl, ht⟩
    cases st <;> simp [open_ems, get_orders, ht]
  · intro hnever
    cases g with
    | none => cases st <;> simp [open_ems, get_orders]
    | some t =>
      have hge : ¬ t < 10 := not_lt.mpr (hnever t rfl)
      cases st <;> simp [open_ems, get_orders, hge]

/-- Witness for C7: the gate set at time 3 yields the book and stream; a
gate that is never set times out. -/
theorem open_ems_handshake_witness :
    (∃ t, (some 3 : Option Nat) = some t ∧ t < 10) ∧
    (open_ems (0 : Nat) (some 3) none).1 =
      .ok ((get_orders none none).1, 0) ∧
    (open_ems (0 : Nat) none (some newOrderBook)).1 =
      .error .handshakeTimeout :=
  ⟨⟨3, rfl, by decide⟩,
   (open_ems_handshake 0 none (some 3)).1 ⟨3, rfl, by decide⟩,
   (open_ems_handshake 0 (some newOrderBook) none).2
     (fun t h => Option.noConfusion h)⟩

/-- C8 (counterexample): on a resolved method that has one optional
parameter and is called with no kwargs, the source proxy returns absence
(it tests `sig.parameters` for being non-empty), while the claim —
absence only when arguments are REQUIRED — predicts the method is
invoked and its result returned. -/
theorem api_requires_counterexample :
    api exClient "option_chain" ([] : List (String × Nat)) = none ∧
    apiClaimed exClient "option_chain" ([] : List (String × Nat)) = some 7 ∧
    api exClient "option_chain" ([] : List (String × Nat)) ≠
      apiClaimed exClient "option_chain" ([] : List (String × Nat)) := by
  refine ⟨rfl, rfl, ?_⟩
  intro h
  rw [show api exClient "option_chain" ([] : List (String × Nat)) = none
        from rfl] at h
  rw [show apiClaimed exClient "option_chain" ([] : List (String × Nat)) = some 7
        from rfl] at h
  exact Option.noConfusion h

/-- C8 (amended): the proxy resolves the method on the api capability
first, falling back to the client itself; it returns absence when the
method resolves nowhere, or when no kwargs are given and the method has
ANY declared parameter (required or optional); otherwise it invokes the
method with the kwargs and returns its result. -/
theorem api_amended_spec {α : Type} (client : Client α) (methname : String)
    (kwargs : List (String × α)) :
    api client methname kwargs = apiAmended client methname kwargs := by
  simp only [api, apiAmended, resolveMeth]
  cases hA : assocFind client.apiMethods methname with
  | some m =>
    simp only [Option.orElse]
    cases hk : kwargs.isEmpty <;> cases hp : m.params.isEmpty <;> simp [hk, hp]
  | none =>
    cases hC : assocFind client.clientMethods methname with
    | some m =>
      simp only [Option.orElse]
      cases hk : kwargs.isEmpty <;> cases hp : m.params.isEmpty <;>
        simp [hk, hp]
    | none => simp [Option.orElse]

/-- C9: `get_orders` is a per-process singleton factory: the first call
creates the registry/channel/gate triple, and every later call returns
the very same book and leaves the global state unchanged, regardless of
the `emsd_uid` argument. -/
theorem get_orders_singleton (u₁ u₂ : Option (String × String))
    (st : Option OrderBook) :
    get_orders u₁ none = (newOrderBook, some newOrderBook) ∧
    get_orders u₂ (get_orders u₁ st).2 =
      ((get_orders u₁ st).1, (get_orders u₁ st).2) := by
  refine ⟨rfl, ?_⟩
  cases st <;> rfl

/-- C10: `send` is not atomic on failure: when the enqueue fails with
ChannelFull, the registry has already been updated to map the order id to
the newly built command and is not rolled back; only the channel is left
unchanged. -/
theorem send_not_atomic (book : OrderBook) (r : SendReq)
    (hfull : book.toEms.capacity ≤ book.toEms.buf.length) :
    (sendReq book r).1 = .error .channelFull ∧
    (sendReq book r).2.sentOrders =
      assocInsert book.sentOrders r.uuid (cmdOf r) ∧
    assocFind (sendReq book r).2.sentOrders r.uuid = some (cmdOf r) ∧
    (sendReq book r).2.toEms = book.toEms := by
  have hnot : ¬ book.toEms.buf.length < book.toEms.capacity := not_lt.mpr hfull
  refine ⟨?_, ?_, ?_, ?_⟩
  · simp [sendReq, OrderBook.send, Channel.sendNowait, hnot]
  · rw [send_sentOrders]
  · rw [send_sentOrders]
    exact assocFind_insert_self _ _ _
  · simp [sendReq, OrderBook.send, Channel.sendNowait, hnot]

/-- Witness for C10 on a saturated channel. -/
theorem send_not_atomic_witness :
    fullBook.toEms.capacity ≤ fullBook.toEms.buf.length ∧
    ((sendReq fullBook wReq2).1 = .error .channelFull ∧
     (sendReq fullBook wReq2).2.sentOrders =
       assocInsert fullBook.sentOrders wReq2.uuid (cmdOf wReq2) ∧
     assocFind (sendReq fullBook wReq2).2.sentOrders wReq2.uuid =
       some (cmdOf wReq2) ∧
     (sendReq fullBook wReq2).2.toEms = fullBook.toEms) :=
  ⟨by decide, send_not_atomic fullBook wReq2 (by decide)⟩

end Piker
